import Mathlib

/-
Verification development for the form-extraction pipeline in src/app.py.

The review tab (app.py lines 230-302) walks the extracted document and
rebuilds it from widget contents; the export tab (lines 304-365) flattens
the edited document to dotted paths, reverse-maps it onto the target
columns and splits it into an official table and an extra table.

JSON-like runtime values are modelled by the tagged union Value below.
Numeric leaves are modelled as integers; the claims under study involve
only integer numerics. Python dicts are modelled as association lists in
insertion order; the helper pyDict reproduces dict construction from a
pair stream (first-occurrence key order, last value wins).
-/

namespace OppTree

inductive Value : Type where
  | vnull : Value
  | vbool : Bool → Value
  | vint  : Int → Value
  | vstr  : String → Value
  | vlist : List Value → Value
  | vobj  : List (String × Value) → Value

open Value

mutual
/-- Python repr of a value, as produced for container arguments of str().
String escaping inside repr is not modelled (no claim depends on it). -/
def pyRepr : Value → String
  | vnull => "None"
  | vbool true => "True"
  | vbool false => "False"
  | vint n => toString n
  | vstr s => "\x27" ++ s ++ "\x27"
  | vlist xs => "[" ++ pyReprList xs ++ "]"
  | vobj kvs => "\x7b" ++ pyReprObj kvs ++ "\x7d"

def pyReprList : List Value → String
  | [] => ""
  | [x] => pyRepr x
  | x :: y :: rest => pyRepr x ++ ", " ++ pyReprList (y :: rest)

def pyReprObj : List (String × Value) → String
  | [] => ""
  | [(k, v)] => "\x27" ++ k ++ "\x27: " ++ pyRepr v
  | (k, v) :: y :: rest => "\x27" ++ k ++ "\x27: " ++ pyRepr v ++ ", " ++ pyReprObj (y :: rest)
end

/-- Python str() of a value: identity on strings, repr-like elsewhere. -/
def pyStr : Value → String
  | vstr s => s
  | v => pyRepr v

/-- Python truthiness: None, False, 0, empty string, empty list and empty
dict are falsy. -/
def pyFalsy : Value → Bool
  | vnull => true
  | vbool b => !b
  | vint n => n == 0
  | vstr s => s == ""
  | vlist xs => xs.isEmpty
  | vobj kvs => kvs.isEmpty

/-- The Python expression (v or ""). -/
def pyOrEmpty (v : Value) : Value :=
  if pyFalsy v then vstr "" else v

/-- Last-wins lookup in an association list, matching lookup in a Python
dict built by inserting the pairs in order. -/
def dlastS (l : List (String × String)) (key : String) : Option String :=
  l.foldl (fun acc kv => if kv.1 = key then some kv.2 else acc) none

/-- Last-wins lookup for value-valued association lists. -/
def vLookup (l : List (String × Value)) (key : String) : Option Value :=
  l.foldl (fun acc kv => if kv.1 = key then some kv.2 else acc) none

/-- The widget state of one script run: the text a user typed into the
text widget with a given key (none when the widget is untouched) and the
state of the checkbox with a given key. -/
structure Edits where
  text : String → Option String
  flag : String → Option Bool

/-- Model of st.text_input and st.text_area: the user text when edited,
the (str-cast) default otherwise. -/
def text_input (e : Edits) (key default : String) : String :=
  (e.text key).getD default

/-- Model of st.checkbox. -/
def checkbox (e : Edits) (key : String) (default : Bool) : Bool :=
  (e.flag key).getD default

/-- No widget has been touched: every widget reports its default. -/
def noEdits : Edits := ⟨fun _ => none, fun _ => none⟩

/-- Review pass, one-level sub-dictionary of a field (app.py 245-252):
every subvalue becomes a text input with default (subval or ""). -/
def render_subdict (e : Edits) (s f : String) (kvs : List (String × Value)) : Value :=
  vobj (kvs.map (fun kv =>
    (kv.1, vstr (text_input e (s ++ "_" ++ f ++ "_" ++ kv.1) (pyStr (pyOrEmpty kv.2))))))

/-- Review pass, one field of a mapping section (app.py 239-273). A dict
value is first unwrapped to its properties sub-dict when present; a bool
becomes a checkbox; a list becomes a text area holding the comma-joined
str of its elements; any other value becomes a text input with default
(value or ""). -/
def render_field (e : Edits) (s f : String) : Value → Value
  | vobj kvs =>
      render_subdict e s f
        (match vLookup kvs "properties" with
         | some (vobj props) => props
         | _ => kvs)
  | vbool b => vbool (checkbox e (s ++ "_" ++ f) b)
  | vlist xs =>
      vstr (text_input e (s ++ "_" ++ f) (String.intercalate ", " (xs.map pyStr)))
  | v => vstr (text_input e (s ++ "_" ++ f) (pyStr (pyOrEmpty v)))

/-- Review pass, one entry of a repeated-entry section (app.py 280-291):
every subvalue becomes a text input with default str(subval), None shown
as empty text. The 1-based entry index enters the widget key. -/
def render_entry (e : Edits) (s : String) (idx : Nat) (item : List (String × Value)) : Value :=
  vobj (item.map (fun kv =>
    (kv.1, vstr (text_input e (s ++ "_" ++ toString idx ++ "_" ++ kv.1)
      (match kv.2 with
       | vnull => ""
       | v => pyStr v)))))

/-- Review pass over the entries of a repeated-entry section. The source
iterates item.items() on every entry, so a non-dict entry raises at run
time; that is modelled as none. -/
def render_entries (e : Edits) (s : String) : Nat → List Value → Option (List Value)
  | _, [] => some []
  | idx, vobj item :: rest =>
      (render_entries e s (idx + 1) rest).map (fun r => render_entry e s idx item :: r)
  | _, _ :: _ => none

/-- Review pass, one top-level section (app.py 230-300): a dict renders
field by field; a non-empty list whose first element is a dict renders as
repeated entries; anything else becomes a single text input with default
str(fields), None shown as empty text. -/
def render_section (e : Edits) (s : String) : Value → Option Value
  | vobj fields =>
      some (vobj (fields.map (fun kv => (kv.1, render_field e s kv.1 kv.2))))
  | vlist (first :: rest) =>
      match first with
      | vobj _ => (render_entries e s 1 (first :: rest)).map vlist
      | _ =>
          some (vstr (text_input e (s ++ "_value") (pyStr (vlist (first :: rest)))))
  | vnull => some (vstr (text_input e (s ++ "_value") ""))
  | v => some (vstr (text_input e (s ++ "_value") (pyStr v)))

/-- Review pass over the whole document: edited_data collects one entry
per top-level section, in order. -/
def render_doc (e : Edits) : List (String × Value) → Option (List (String × Value))
  | [] => some []
  | (s, v) :: rest =>
      match render_section e s v, render_doc e rest with
      | some v2, some rest2 => some ((s, v2) :: rest2)
      | _, _ => none

/-- Dotted-path concatenation of flatten_json (app.py 332): the bare key
at top level, parent + sep + key below. -/
def newKey (parent sep k : String) : String :=
  if parent = "" then k else parent ++ sep ++ k

/-- flatten_json (app.py 329-337): recursion descends into dict values
only; every non-dict value, lists included, is a leaf. The resulting
insertion stream is deduplicated by pyDict below, matching the dict the
Python code builds. -/
def flatten_json : List (String × Value) → String → String → List (String × Value)
  | [], _, _ => []
  | (k, v) :: rest, parent, sep =>
      match v with
      | vobj fields =>
          flatten_json fields (newKey parent sep k) sep ++ flatten_json rest parent sep
      | _ => (newKey parent sep k, v) :: flatten_json rest parent sep

/-- First-match lookup in an association list with string keys. -/
def flookup {β : Type} : List (String × β) → String → Option β
  | [], _ => none
  | (k, v) :: rest, key => if k = key then some v else flookup rest key

/-- Python dict built by inserting a stream of pairs in order: keys keep
their first-occurrence position, each key keeps its last value. -/
def pyDict {β : Type} : List (String × β) → List (String × β)
  | [] => []
  | (k, v) :: rest =>
      (k, (flookup (pyDict rest) k).getD v) :: (pyDict rest).filter (fun kv => kv.1 ≠ k)

/-- The flat record the export builds from the edited document
(app.py 339): a dict collecting the flatten_json stream. -/
def flat_data (doc : List (String × Value)) : List (String × Value) :=
  pyDict (flatten_json doc "" ".")

/-- reverse_map (app.py 327): the dict comprehension over the mapping,
skipping entries whose target column is falsy; on duplicate target
columns the later source path wins. Keys are target columns, values are
source paths. -/
def reverse_map (mapping : List (String × String)) : List (String × String) :=
  pyDict ((mapping.filter (fun kv => kv.2 ≠ "")).map (fun kv => (kv.2, kv.1)))

/-- mapped_extract_cols (app.py 354): the set of source paths that
survive as values of the reverse map. -/
def mapped_extract_cols (mapping : List (String × String)) : List String :=
  (reverse_map mapping).map Prod.snd

/-- One cell of the official table (app.py 347-352): the flat value when
the column has a truthy reverse-mapped source path that is a flat column,
the empty string otherwise. -/
def official_cell (mapping : List (String × String)) (flat : List (String × Value))
    (col : String) : Value :=
  match dlastS (reverse_map mapping) col with
  | some src =>
      if src ≠ "" ∧ (vLookup flat src).isSome then (vLookup flat src).getD (vstr "")
      else vstr ""
  | none => vstr ""

/-- The official table row: one cell per target column, in target-column
order (app.py 345-352). -/
def official_row (idf_cols : List String) (mapping : List (String × String))
    (flat : List (String × Value)) : List (String × Value) :=
  idf_cols.map (fun c => (c, official_cell mapping flat c))

/-- extra_cols (app.py 355): the flat columns that are not surviving
reverse-map source paths, in flat-record key order. -/
def extra_cols (mapping : List (String × String)) (flat : List (String × Value)) :
    List String :=
  (flat.map Prod.fst).filter (fun c => ¬ (mapped_extract_cols mapping).contains c)

/-- The extra table (app.py 356): the flat record restricted to
extra_cols. -/
def extra_table (mapping : List (String × String)) (flat : List (String × Value)) :
    List (String × Value) :=
  (extra_cols mapping flat).map (fun c => (c, (vLookup flat c).getD vnull))

/-- Modelled from the claim wording, for comparison with official_cell:
the column value is FlatRecord at the reverse-mapped source path when
that source path is present, the empty string otherwise. -/
def official_cell_spec (mapping : List (String × String)) (flat : List (String × Value))
    (col : String) : Value :=
  match dlastS (reverse_map mapping) col with
  | some src =>
      match vLookup flat src with
      | some v => v
      | none => vstr ""
  | none => vstr ""

/-- Modelled from the claim wording, for comparison with extra_cols: the
flat keys that are not a mapping source path for any (nonempty) target
column. -/
def unmapped_keys_spec (mapping : List (String × String))
    (flat : List (String × Value)) : List String :=
  (flat.map Prod.fst).filter (fun c => ¬ mapping.any (fun kv => kv.1 == c && kv.2 != ""))

/-- The state the export run reads (app.py 304-365): the completion flag,
the reviewed document, whether the target-schema workbook exists, the
field-mapping load result (none models a missing or malformed
field_mapping.json raising before any computation), and the target
columns read from the workbook. -/
structure ExportEnv where
  extraction_complete : Bool
  edited_data : List (String × Value)
  idf_exists : Bool
  mapping_load : Option (List (String × String))
  idf_cols : List String

/-- Straight-line model of the export click handler (app.py 304-365):
each guard stops the script before any file write; on success the
official workbook is always written and the extra workbook is written
exactly when extra_cols is non-empty. The second component lists the
files written, in write order. -/
def run_export (env : ExportEnv) : Except String Unit × List String :=
  if env.extraction_complete = false then
    (Except.error "Complete extraction first.", [])
  else if env.edited_data.isEmpty then
    (Except.error "No reviewed data available to export.", [])
  else if env.idf_exists = false then
    (Except.error "IDF provider Excel not found.", [])
  else
    match env.mapping_load with
    | none => (Except.error "field_mapping.json missing or malformed", [])
    | some mapping =>
        let flat := flat_data env.edited_data
        (Except.ok (),
          ["official"] ++ (if (extra_cols mapping flat).isEmpty then [] else ["extra"]))

/-- Scalar (leaf) values: null, booleans, numbers and strings. -/
def isScalarV : Value → Bool
  | vnull => true
  | vbool _ => true
  | vint _ => true
  | vstr _ => true
  | _ => false

/-- Discriminator used to state that a leaf is a list. -/
def isVList : Value → Bool
  | vlist _ => true
  | _ => false

/-- Discriminator used to state that a leaf is a number. -/
def isVInt : Value → Bool
  | vint _ => true
  | _ => false

/-- Discriminator for string leaves. -/
def isVStr : Value → Bool
  | vstr _ => true
  | _ => false

mutual
/-- Structural comparison formalising identical key sets and nesting
shape with only leaf values and scalar-list element typing allowed to
change: scalars match scalars, scalar lists match scalar lists, other
lists match pointwise, mappings match when their key lists agree (the
render preserves key order, so key-list and key-set agreement coincide
on its outputs) and their values match pointwise. -/
def sameShape : Value → Value → Bool
  | vobj a, vobj b => sameShapeObj a b
  | vlist a, vlist b => (a.all isScalarV && b.all isScalarV) || sameShapeList a b
  | a, b => isScalarV a && isScalarV b

def sameShapeList : List Value → List Value → Bool
  | [], [] => true
  | x :: xs, y :: ys => sameShape x y && sameShapeList xs ys
  | _, _ => false

def sameShapeObj : List (String × Value) → List (String × Value) → Bool
  | [], [] => true
  | (k, v) :: xs, (k2, v2) :: ys => k == k2 && sameShape v v2 && sameShapeObj xs ys
  | _, _ => false
end

/-- Shape comparison of two documents (top-level mappings). -/
def sameShapeDoc (a b : List (String × Value)) : Bool :=
  sameShapeObj a b

/-- Success discriminator for the export outcome. -/
def isOkE : Except String Unit → Bool
  | Except.ok _ => true
  | Except.error _ => false

/-- A repeated-entry item every subvalue of which is a string; such an
item is echoed unchanged by an unedited review pass. -/
def entryExact : Value → Bool
  | vobj kvs => kvs.all (fun kv => isVStr kv.2)
  | _ => false

/-- A field value echoed unchanged by an unedited review pass: a boolean,
a string, or a sub-dictionary with no properties sub-dictionary and only
string subvalues. -/
def fieldExact : Value → Bool
  | vobj kvs =>
      (match vLookup kvs "properties" with
       | some (vobj _) => false
       | _ => true) && kvs.all (fun kv => isVStr kv.2)
  | vbool _ => true
  | vstr _ => true
  | _ => false

/-- A section echoed unchanged by an unedited review pass: a dictionary
of exact fields, a non-empty list of exact entries, or a string. -/
def sectionExact : Value → Bool
  | vobj fields => fields.all (fun kv => fieldExact kv.2)
  | vlist items => !items.isEmpty && items.all entryExact
  | vstr _ => true
  | _ => false

/-- Document whose field f carries a properties sub-dictionary, the
schema-echo shape the review pass unwraps (app.py 240-241). -/
def docC1 : List (String × Value) :=
  [("S", vobj [("f", vobj [("properties", vobj [("x", vint 1)])])])]

/-- What the review pass produces from docC1 with no edits. -/
def outC1 : List (String × Value) :=
  [("S", vobj [("f", vobj [("x", vstr "1")])])]

/-- The merged document of the end-to-end example in the spec. -/
def docC2 : List (String × Value) :=
  [("Demographics", vobj
      [("name", vstr "Jane Doe"), ("age", vint 41), ("phone", vstr "555-1000")]),
   ("Medications", vlist [vobj [("drug", vstr "Aspirin"), ("dose", vstr "81mg")]])]

/-- The field mapping of the end-to-end example. -/
def mappingC2 : List (String × String) := [("Demographics.name", "PatientName")]

/-- Document with one scalar-list leaf. -/
def docC3 : List (String × Value) :=
  [("S", vobj [("tags", vlist [vstr "a", vstr "b"])])]

/-- Edit state in which the user typed 42 into the widget of the numeric
leaf S.age. -/
def editsC4 : Edits :=
  ⟨fun k => if k = "S_age" then some "42" else none, fun _ => none⟩

/-- Field mapping in which two distinct source paths target the same
column. -/
def mappingC6 : List (String × String) := [("a", "T"), ("b", "T")]

/-- Flat record containing one of the two source paths of mappingC6. -/
def flatC6 : List (String × Value) := [("a", vstr "x")]

/-- Document with a numeric leaf inside a nested mapping. -/
def docC7 : List (String × Value) :=
  [("S", vobj [("f", vobj [("x", vint 41)])])]

/-- Document all of whose leaves are booleans or strings. -/
def docC7W : List (String × Value) :=
  [("S", vobj [("ok", vbool true), ("name", vstr "Jane")]),
   ("Meds", vlist [vobj [("drug", vstr "Aspirin")]]),
   ("Note", vstr "hi")]

/-- Export state in which extraction has not completed. -/
def envC8 : ExportEnv :=
  ⟨false, [], false, none, []⟩

/-- Export state of the end-to-end example, with every precondition met. -/
def envC6W : ExportEnv :=
  ⟨true, docC2, true, some mappingC2, ["PatientName", "DOB"]⟩

/-- A successful first-match lookup returns a pair of the list. -/
theorem flookup_mem {β : Type} {l : List (String × β)} {key : String} {v : β}
    (h : flookup l key = some v) : (key, v) ∈ l := by
  induction l with
  | nil => simp [flookup] at h
  | cons x rest ih =>
      obtain ⟨k0, v0⟩ := x
      by_cases hk : k0 = key
      · subst hk
        simp [flookup] at h
        subst h
        exact List.mem_cons_self _ _
      · simp [flookup, hk] at h
        exact List.mem_cons_of_mem _ (ih h)

/-- Lookup of an absent key fails. -/
theorem flookup_not_mem {β : Type} {l : List (String × β)} {key : String}
    (h : key ∉ l.map Prod.fst) : flookup l key = none := by
  induction l with
  | nil => rfl
  | cons x rest ih =>
      obtain ⟨k0, v0⟩ := x
      simp only [List.map_cons, List.mem_cons, not_or] at h
      have hk : k0 ≠ key := fun hh => h.1 hh.symm
      simp [flookup, hk, ih h.2]

/-- With duplicate-free keys, lookup finds the value of any member pair. -/
theorem flookup_of_nodup {β : Type} {l : List (String × β)} {key : String} {v : β}
    (hnd : (l.map Prod.fst).Nodup) (h : (key, v) ∈ l) : flookup l key = some v := by
  induction l with
  | nil => simp at h
  | cons x rest ih =>
      obtain ⟨k0, v0⟩ := x
      simp only [List.map_cons, List.nodup_cons] at hnd
      rcases List.mem_cons.mp h with h1 | h1
      · rw [Prod.mk.injEq] at h1
        obtain ⟨hk, hv⟩ := h1
        subst hk
        subst hv
        simp [flookup]
      · have hkey : key ∈ rest.map Prod.fst :=
          List.mem_map.mpr ⟨(key, v), h1, rfl⟩
        have hk0 : k0 ≠ key := fun hh => hnd.1 (hh ▸ hkey)
        simp [flookup, hk0]
        exact ih hnd.2 h1

/-- First-match lookup distributes over append. -/
theorem flookup_append {β : Type} (l1 l2 : List (String × β)) (key : String) :
    flookup (l1 ++ l2) key =
      match flookup l1 key with
      | some v => some v
      | none => flookup l2 key := by
  induction l1 with
  | nil => rfl
  | cons x rest ih =>
      obtain ⟨k0, v0⟩ := x
      by_cases hk : k0 = key <;> simp [flookup, hk, ih]

/-- The last-wins fold equals first-match lookup in the reversed list,
with the accumulator as fallback. -/
theorem dlastS_foldl (l : List (String × String)) (key : String) (acc : Option String) :
    l.foldl (fun acc kv => if kv.1 = key then some kv.2 else acc) acc =
      match flookup l.reverse key with
      | some v => some v
      | none => acc := by
  induction l generalizing acc with
  | nil => rfl
  | cons x rest ih =>
      obtain ⟨k0, v0⟩ := x
      simp only [List.foldl_cons, List.reverse_cons]
      rw [ih, flookup_append]
      cases flookup rest.reverse key with
      | some v => rfl
      | none => by_cases hk : k0 = key <;> simp [flookup, hk]

/-- Last-wins dictionary lookup is first-match lookup in reverse. -/
theorem dlastS_eq_reverse (l : List (String × String)) (key : String) :
    dlastS l key = flookup l.reverse key := by
  rw [dlastS, dlastS_foldl]
  cases flookup l.reverse key <;> rfl

/-- A successful last-wins lookup returns a pair of the list. -/
theorem dlastS_mem {l : List (String × String)} {key v : String}
    (h : dlastS l key = some v) : (key, v) ∈ l := by
  rw [dlastS_eq_reverse] at h
  exact List.mem_reverse.mp (flookup_mem h)

/-- With duplicate-free keys, last-wins lookup finds the value of any
member pair. -/
theorem dlastS_of_nodup {l : List (String × String)} {key v : String}
    (hnd : (l.map Prod.fst).Nodup) (h : (key, v) ∈ l) : dlastS l key = some v := by
  rw [dlastS_eq_reverse]
  refine flookup_of_nodup ?_ (List.mem_reverse.mpr h)
  rw [List.map_reverse]
  exact List.nodup_reverse.mpr hnd

/-- Every pair of the built dictionary is a pair of the insertion
stream. -/
theorem pyDict_mem {β : Type} {l : List (String × β)} {kv : String × β}
    (h : kv ∈ pyDict l) : kv ∈ l := by
  induction l with
  | nil => simp [pyDict] at h
  | cons x rest ih =>
      obtain ⟨k0, v0⟩ := x
      simp only [pyDict, List.mem_cons] at h
      rcases h with h1 | h1
      · cases hl : flookup (pyDict rest) k0 with
        | some u =>
            rw [hl] at h1
            subst h1
            exact List.mem_cons_of_mem _ (ih (flookup_mem hl))
        | none =>
            rw [hl] at h1
            subst h1
            exact List.mem_cons_self _ _
      · exact List.mem_cons_of_mem _ (ih (List.mem_filter.mp h1).1)

/-- Building a dictionary from a stream with duplicate-free keys changes
nothing. -/
theorem pyDict_of_nodup {β : Type} {l : List (String × β)}
    (hnd : (l.map Prod.fst).Nodup) : pyDict l = l := by
  induction l with
  | nil => rfl
  | cons x rest ih =>
      obtain ⟨k0, v0⟩ := x
      simp only [List.map_cons, List.nodup_cons] at hnd
      have hrest : pyDict rest = rest := ih hnd.2
      rw [pyDict, hrest, flookup_not_mem hnd.1]
      simp only [Option.getD_none]
      congr 1
      refine List.filter_eq_self.mpr ?_
      intro kv hkv
      have hmem : kv.1 ∈ rest.map Prod.fst := List.mem_map.mpr ⟨kv, hkv, rfl⟩
      have hne : kv.1 ≠ k0 := fun hh => hnd.1 (hh ▸ hmem)
      simpa using hne

/-- With pairwise-distinct nonempty target columns, the surviving
reverse-map source paths are exactly the mapping source paths. -/
theorem mapped_extract_cols_of_nodup (mapping : List (String × String))
    (hnd : (mapping.map Prod.snd).Nodup) (hne : ∀ kv ∈ mapping, kv.2 ≠ "") :
    mapped_extract_cols mapping = mapping.map Prod.fst := by
  have hf : mapping.filter (fun kv => kv.2 ≠ "") = mapping :=
    List.filter_eq_self.mpr (fun kv hkv => by simpa using hne kv hkv)
  have hkeys : (((mapping.filter (fun kv => kv.2 ≠ "")).map
      (fun kv => (kv.2, kv.1))).map Prod.fst).Nodup := by
    rw [hf, List.map_map]
    exact hnd
  rw [mapped_extract_cols, reverse_map, pyDict_of_nodup hkeys, hf, List.map_map]
  rfl

/-- When every mapping source path is nonempty, the cell computed by the
export equals its specification. -/
theorem official_cell_eq_spec (mapping : List (String × String))
    (flat : List (String × Value)) (hne : ∀ kv ∈ mapping, kv.1 ≠ "") (col : String) :
    official_cell mapping flat col = official_cell_spec mapping flat col := by
  simp only [official_cell, official_cell_spec]
  cases hd : dlastS (reverse_map mapping) col with
  | none => rfl
  | some src =>
      have hmem : (col, src) ∈ reverse_map mapping := dlastS_mem hd
      have hmem2 : (col, src) ∈ (mapping.filter (fun kv => kv.2 ≠ "")).map
          (fun kv => (kv.2, kv.1)) := pyDict_mem hmem
      obtain ⟨kv, hkv, heq⟩ := List.mem_map.mp hmem2
      rw [Prod.mk.injEq] at heq
      have hsrc : src ≠ "" := by
        rw [← heq.2]
        exact hne kv (List.mem_filter.mp hkv).1
      cases hl : vLookup flat src with
      | some v => simp [hsrc, hl]
      | none => simp [hsrc, hl]

/-- An unedited text widget echoes a string leaf exactly, the empty
string included. -/
theorem pyStr_pyOrEmpty_str (s : String) : pyStr (pyOrEmpty (vstr s)) = s := by
  by_cases h : s = "" <;> simp [pyOrEmpty, pyFalsy, pyStr, h]

/-- Mapping a pointwise-identity function over a list changes nothing. -/
theorem map_id_of_eq {α : Type} (l : List α) (f : α → α) (h : ∀ a ∈ l, f a = a) :
    l.map f = l := by
  induction l with
  | nil => rfl
  | cons x rest ih =>
      simp only [List.map_cons, h x (List.mem_cons_self x rest)]
      rw [ih (fun a ha => h a (List.mem_cons_of_mem x ha))]

/-- Mapping pointwise-equal functions over a list gives equal lists. -/
theorem map_congr_on {α β : Type} (l : List α) (f g : α → β) (h : ∀ a ∈ l, f a = g a) :
    l.map f = l.map g := by
  induction l with
  | nil => rfl
  | cons x rest ih =>
      simp only [List.map_cons, h x (List.mem_cons_self x rest)]
      rw [ih (fun a ha => h a (List.mem_cons_of_mem x ha))]

/-- A sub-dictionary all of whose values are strings is echoed unchanged
by the unedited review pass. -/
theorem render_subdict_exact (s f : String) (kvs : List (String × Value))
    (hstr : ∀ kv ∈ kvs, isVStr kv.2 = true) :
    render_subdict noEdits s f kvs = vobj kvs := by
  rw [render_subdict]
  congr 1
  refine map_id_of_eq kvs _ ?_
  intro kv hkv
  have hv := hstr kv hkv
  cases hk : kv.2 with
  | vstr str =>
      simp only [text_input, noEdits, Option.getD_none, pyStr_pyOrEmpty_str]
      exact Prod.ext rfl hk.symm
  | vnull => rw [hk] at hv; simp [isVStr] at hv
  | vbool b => rw [hk] at hv; simp [isVStr] at hv
  | vint n => rw [hk] at hv; simp [isVStr] at hv
  | vlist xs => rw [hk] at hv; simp [isVStr] at hv
  | vobj kvs2 => rw [hk] at hv; simp [isVStr] at hv

/-- An exact field value is echoed unchanged by the unedited review
pass. -/
theorem render_field_exact (s f : String) {v : Value} (h : fieldExact v = true) :
    render_field noEdits s f v = v := by
  cases v with
  | vobj kvs =>
      simp only [fieldExact, Bool.and_eq_true] at h
      obtain ⟨hprops, hall⟩ := h
      have hstr : ∀ kv ∈ kvs, isVStr kv.2 = true := List.all_eq_true.mp hall
      rw [render_field]
      cases hp : vLookup kvs "properties" with
      | none => simp only [hp]; exact render_subdict_exact s f kvs hstr
      | some u =>
          cases u with
          | vobj props => rw [hp] at hprops; simp at hprops
          | vnull => simp only [hp]; exact render_subdict_exact s f kvs hstr
          | vbool b => simp only [hp]; exact render_subdict_exact s f kvs hstr
          | vint n => simp only [hp]; exact render_subdict_exact s f kvs hstr
          | vstr s2 => simp only [hp]; exact render_subdict_exact s f kvs hstr
          | vlist xs => simp only [hp]; exact render_subdict_exact s f kvs hstr
  | vbool b => rfl
  | vstr s0 =>
      simp only [render_field, text_input, noEdits, Option.getD_none, pyStr_pyOrEmpty_str]
  | vnull => simp [fieldExact] at h
  | vint n => simp [fieldExact] at h
  | vlist xs => simp [fieldExact] at h

/-- An exact repeated entry is echoed unchanged by the unedited review
pass. -/
theorem render_entry_exact (s : String) (idx : Nat) (item : List (String × Value))
    (hstr : ∀ kv ∈ item, isVStr kv.2 = true) :
    render_entry noEdits s idx item = vobj item := by
  rw [render_entry]
  congr 1
  refine map_id_of_eq item _ ?_
  intro kv hkv
  have hv := hstr kv hkv
  cases hk : kv.2 with
  | vstr str =>
      simp only [text_input, noEdits, Option.getD_none, pyStr]
      exact Prod.ext rfl hk.symm
  | vnull => rw [hk] at hv; simp [isVStr] at hv
  | vbool b => rw [hk] at hv; simp [isVStr] at hv
  | vint n => rw [hk] at hv; simp [isVStr] at hv
  | vlist xs => rw [hk] at hv; simp [isVStr] at hv
  | vobj kvs2 => rw [hk] at hv; simp [isVStr] at hv

/-- A sequence of exact repeated entries is echoed unchanged by the
unedited review pass, whatever the starting index. -/
theorem render_entries_exact (s : String) (items : List Value)
    (hx : ∀ it ∈ items, entryExact it = true) :
    ∀ idx, render_entries noEdits s idx items = some items := by
  induction items with
  | nil => intro idx; rfl
  | cons it rest ih =>
      intro idx
      have hit := hx it (List.mem_cons_self it rest)
      cases it with
      | vobj item =>
          have hstr : ∀ kv ∈ item, isVStr kv.2 = true := by
            simp only [entryExact] at hit
            exact List.all_eq_true.mp hit
          rw [render_entries]
          rw [ih (fun a ha => hx a (List.mem_cons_of_mem _ ha)) (idx + 1)]
          simp [render_entry_exact s idx item hstr]
      | vnull => simp [entryExact] at hit
      | vbool b => simp [entryExact] at hit
      | vint n => simp [entryExact] at hit
      | vstr s2 => simp [entryExact] at hit
      | vlist xs => simp [entryExact] at hit

/-- An exact section is echoed unchanged by the unedited review pass. -/
theorem render_section_exact (s : String) {v : Value} (h : sectionExact v = true) :
    render_section noEdits s v = some v := by
  cases v with
  | vobj fields =>
      have hf : ∀ kv ∈ fields, fieldExact kv.2 = true :=
        List.all_eq_true.mp (by simpa [sectionExact] using h)
      rw [render_section]
      congr 2
      refine map_id_of_eq fields _ ?_
      intro kv hkv
      exact Prod.ext rfl (render_field_exact s kv.1 (hf kv hkv))
  | vlist items =>
      simp only [sectionExact, Bool.and_eq_true] at h
      obtain ⟨hne, hall⟩ := h
      have hx : ∀ it ∈ items, entryExact it = true := List.all_eq_true.mp hall
      cases items with
      | nil => simp at hne
      | cons first rest =>
          have hfirst := hx first (List.mem_cons_self first rest)
          cases first with
          | vobj item =>
              rw [render_section]
              rw [render_entries_exact s (vobj item :: rest) hx 1]
              rfl
          | vnull => simp [entryExact] at hfirst
          | vbool b => simp [entryExact] at hfirst
          | vint n => simp [entryExact] at hfirst
          | vstr s2 => simp [entryExact] at hfirst
          | vlist xs => simp [entryExact] at hfirst
  | vstr s0 =>
      have hv : render_section noEdits s (vstr s0) =
          some (vstr (text_input noEdits (s ++ "_value") (pyStr (vstr s0)))) := rfl
      rw [hv]
      simp [text_input, noEdits, pyStr]
  | vnull => simp [sectionExact] at h
  | vbool b => simp [sectionExact] at h
  | vint n => simp [sectionExact] at h

/-- An all-exact document is reproduced verbatim by the unedited review
pass. -/
theorem render_doc_exact (doc : List (String × Value))
    (h : ∀ kv ∈ doc, sectionExact kv.2 = true) :
    render_doc noEdits doc = some doc := by
  induction doc with
  | nil => rfl
  | cons x rest ih =>
      obtain ⟨s, v⟩ := x
      rw [render_doc]
      rw [render_section_exact s (h (s, v) (List.mem_cons_self _ _)),
        ih (fun a ha => h a (List.mem_cons_of_mem _ ha))]

/-- The review pass sends a mapping section to a mapping with the same
field keys in the same order, for every edit state. -/
theorem render_section_obj (e : Edits) (s : String) (fields : List (String × Value)) :
    render_section e s (vobj fields) =
      some (vobj (fields.map (fun kv => (kv.1, render_field e s kv.1 kv.2)))) := rfl

/-- C1, amended: the correction pass preserves the top-level section key
list and, for every mapping section, the field key list, for every edit
state; deeper structure is not preserved in general (a field carrying a
properties sub-mapping is replaced by that sub-mapping, and sub-mappings,
scalar lists and other non-scalar leaves below the field level collapse
to single string leaves). -/
theorem C1_keys_preserved (e : Edits) (doc out : List (String × Value))
    (h : render_doc e doc = some out) :
    out.map Prod.fst = doc.map Prod.fst ∧
    List.Forall₂ (fun a b : String × Value =>
      ∀ fields, a.2 = vobj fields →
        ∃ fields2, b.2 = vobj fields2 ∧ fields2.map Prod.fst = fields.map Prod.fst)
      doc out := by
  induction doc generalizing out with
  | nil =>
      rw [render_doc] at h
      obtain rfl : ([] : List (String × Value)) = out := Option.some.inj h
      exact ⟨rfl, List.Forall₂.nil⟩
  | cons x rest ih =>
      obtain ⟨s, v⟩ := x
      rw [render_doc] at h
      cases hs : render_section e s v with
      | none => rw [hs] at h; cases h
      | some v2 =>
          cases hr : render_doc e rest with
          | none => rw [hs, hr] at h; cases h
          | some rest2 =>
              rw [hs, hr] at h
              obtain rfl : (s, v2) :: rest2 = out := Option.some.inj h
              obtain ⟨ih1, ih2⟩ := ih rest2 hr
              constructor
              · simp [ih1]
              · refine List.Forall₂.cons ?_ ih2
                intro fields hf
                simp only at hf
                subst hf
                rw [render_section_obj] at hs
                have hv2 : vobj (fields.map (fun kv => (kv.1, render_field e s kv.1 kv.2))) = v2 :=
                  Option.some.inj hs
                refine ⟨fields.map (fun kv => (kv.1, render_field e s kv.1 kv.2)), hv2.symm, ?_⟩
                rw [List.map_map]
                rfl

/-- C1, witness: the key-preservation theorem applied to the concrete
document docC1 and the output of its unedited render. -/
theorem C1_keys_preserved_witness :
    outC1.map Prod.fst = docC1.map Prod.fst ∧
    List.Forall₂ (fun a b : String × Value =>
      ∀ fields, a.2 = vobj fields →
        ∃ fields2, b.2 = vobj fields2 ∧ fields2.map Prod.fst = fields.map Prod.fst)
      docC1 outC1 :=
  C1_keys_preserved noEdits docC1 outC1 rfl

/-- C1, counterexample: the claim that the correction pass is
structurally identity-preserving at every level fails on docC1, whose
field f holds a properties sub-mapping with key set containing x only:
the unedited render replaces the key set of the mapping under f, so the
output does not have the same key sets and nesting shape as the input. -/
theorem C1_counterexample :
    render_doc noEdits docC1 = some outC1 ∧ sameShapeDoc docC1 outC1 = false :=
  ⟨rfl, rfl⟩

/-- C2, amended: for the merged document of the end-to-end example with
mapping Demographics.name to PatientName and target columns PatientName
and DOB, the official row is PatientName = Jane Doe and DOB empty, and
the extra table keeps Demographics.age, Demographics.phone and the
whole Medications list under the single key Medications, because
flatten_json stops at non-mapping leaves and does not descend into
lists. -/
theorem C2_export_example :
    official_row ["PatientName", "DOB"] mappingC2 (flat_data docC2) =
      [("PatientName", vstr "Jane Doe"), ("DOB", vstr "")] ∧
    extra_table mappingC2 (flat_data docC2) =
      [("Demographics.age", vint 41), ("Demographics.phone", vstr "555-1000"),
       ("Medications", vlist [vobj [("drug", vstr "Aspirin"), ("dose", vstr "81mg")]])] := by
  constructor <;>
    simp [flat_data, docC2, mappingC2, flatten_json, newKey, pyDict, flookup,
      official_row, official_cell, reverse_map, dlastS, vLookup, extra_table,
      extra_cols, mapped_extract_cols]

/-- C2, counterexample: the flat record of the example document keys the
Medications list under the single path Medications, so the extra table
columns differ from the per-index dotted paths the claim lists. -/
theorem C2_counterexample :
    extra_cols mappingC2 (flat_data docC2) =
      ["Demographics.age", "Demographics.phone", "Medications"] ∧
    (["Demographics.age", "Demographics.phone", "Medications"] ≠
      ["Demographics.age", "Demographics.phone", "Medications.0.drug",
        "Medications.0.dose"]) := by
  constructor
  · simp [flat_data, docC2, mappingC2, flatten_json, newKey, pyDict, flookup,
      extra_cols, mapped_extract_cols, reverse_map]
  · decide

/-- C3, amended: a scalar-list leaf is presented as one comma-joined
text blob and the edited text itself becomes the leaf of the edited
document: the result is a single string for every edit state (the blob
when unedited, the raw edit otherwise), never a list. -/
theorem C3_scalar_list_blob (e : Edits) (s f : String) (xs : List Value) :
    isVList (render_field e s f (vlist xs)) = false ∧
    (e.text (s ++ "_" ++ f) = none →
      render_field e s f (vlist xs) =
        vstr (String.intercalate ", " (xs.map pyStr))) ∧
    (∀ t, e.text (s ++ "_" ++ f) = some t → render_field e s f (vlist xs) = vstr t) := by
  refine ⟨rfl, ?_, ?_⟩
  · intro h
    simp [render_field, text_input, h]
  · intro t h
    simp [render_field, text_input, h]

/-- C3, witness: the blob theorem applied to an unedited two-element
string list. -/
theorem C3_scalar_list_blob_witness :
    render_field noEdits "S" "tags" (vlist [vstr "a", vstr "b"]) = vstr "a, b" :=
  (C3_scalar_list_blob noEdits "S" "tags" [vstr "a", vstr "b"]).2.1 rfl

/-- C3, counterexample: an unedited review pass turns the scalar-list
leaf tags of docC3 into the single string built by joining its elements
with a comma and a space; the edited-document leaf is not a list. -/
theorem C3_counterexample :
    render_doc noEdits docC3 = some [("S", vobj [("tags", vstr "a, b")])] ∧
    isVList (vstr "a, b") = false :=
  ⟨rfl, rfl⟩

/-- C4, amended: a numeric scalar leaf is presented as text, zero as
empty text, and the edited or default text is stored as a string
unconditionally; the review pass never re-parses the text to a number
and never rejects the edit. -/
theorem C4_numeric_as_text (e : Edits) (s f : String) (n : Int) :
    render_field e s f (vint n) =
      vstr (text_input e (s ++ "_" ++ f) (if n = 0 then "" else toString n)) ∧
    isVInt (render_field e s f (vint n)) = false := by
  constructor
  · by_cases h : n = 0 <;> simp [render_field, pyOrEmpty, pyFalsy, pyStr, pyRepr, h]
  · rfl

/-- C4, counterexample: with the numeric leaf S.age edited to the text
42, which parses as a number, the edited document stores the string 42,
not the number 42: no re-parse to the original numeric kind happens. -/
theorem C4_counterexample :
    render_doc editsC4 [("S", vobj [("age", vint 41)])] =
      some [("S", vobj [("age", vstr "42")])] ∧
    "42" = toString (42 : Int) ∧
    vstr "42" ≠ vint 42 := by
  refine ⟨rfl, rfl, ?_⟩
  simp

/-- C5: for every target-column list, field mapping with nonempty source
paths, and flat record, the official row has exactly the target columns
in order and each cell equals the flat value of the reverse-mapped
source path when present, the empty string otherwise; no column is
omitted. -/
theorem C5_official_projection (cols : List String) (mapping : List (String × String))
    (flat : List (String × Value)) (hne : ∀ kv ∈ mapping, kv.1 ≠ "") :
    (official_row cols mapping flat).map Prod.fst = cols ∧
    official_row cols mapping flat =
      cols.map (fun c => (c, official_cell_spec mapping flat c)) := by
  constructor
  · rw [official_row, List.map_map]
    exact map_id_of_eq cols _ (fun a _ => rfl)
  · rw [official_row]
    exact map_congr_on cols _ _
      (fun c _ => by rw [official_cell_eq_spec mapping flat hne c])

/-- C5, witness: the projection theorem applied to the end-to-end
example. -/
theorem C5_official_projection_witness :
    (official_row ["PatientName", "DOB"] mappingC2 (flat_data docC2)).map Prod.fst =
      ["PatientName", "DOB"] ∧
    official_row ["PatientName", "DOB"] mappingC2 (flat_data docC2) =
      ["PatientName", "DOB"].map
        (fun c => (c, official_cell_spec mappingC2 (flat_data docC2) c)) :=
  C5_official_projection ["PatientName", "DOB"] mappingC2 (flat_data docC2) (by decide)

/-- C6, amended: when no two source paths share a target column and all
target columns are nonempty, the extra table holds exactly the flat keys
that are not mapping source paths, in flat-record order, and a
successful export writes the extra file exactly when that set is
non-empty; without the distinctness hypothesis only the last source
path mapped to each target is excluded (see the counterexample). -/
theorem C6_extra_exactly_unmapped (mapping : List (String × String))
    (flat : List (String × Value)) (env : ExportEnv)
    (hnd : (mapping.map Prod.snd).Nodup) (hne : ∀ kv ∈ mapping, kv.2 ≠ "") :
    extra_cols mapping flat = unmapped_keys_spec mapping flat ∧
    (env.mapping_load = some mapping → isOkE (run_export env).1 = true →
      ("extra" ∈ (run_export env).2 ↔
        extra_cols mapping (flat_data env.edited_data) ≠ [])) := by
  constructor
  · have hm := mapped_extract_cols_of_nodup mapping hnd hne
    rw [extra_cols, unmapped_keys_spec, hm]
    refine List.filter_congr ?_
    intro c hc
    rw [decide_eq_decide]
    apply not_congr
    constructor
    · intro hcon
      obtain ⟨kv, hkv, hfst⟩ := List.mem_map.mp (List.elem_iff.mp hcon)
      refine List.any_eq_true.mpr ⟨kv, hkv, ?_⟩
      simp [hfst, hne kv hkv]
    · intro hany
      obtain ⟨kv, hkv, hp⟩ := List.any_eq_true.mp hany
      simp only [Bool.and_eq_true, beq_iff_eq] at hp
      exact List.elem_iff.mpr (List.mem_map.mpr ⟨kv, hkv, hp.1⟩)
  · intro hml hok
    rcases env with ⟨ec, ed, ie, ml, cols⟩
    simp only at hml
    subst hml
    cases ec with
    | false => simp [run_export, isOkE] at hok
    | true =>
        by_cases hed : ed.isEmpty
        · simp [run_export, isOkE, hed] at hok
        · cases ie with
          | false => simp [run_export, isOkE, hed] at hok
          | true =>
              by_cases hext : (extra_cols mapping (flat_data ed)).isEmpty
              · have hnil : extra_cols mapping (flat_data ed) = [] :=
                  List.isEmpty_iff.mp hext
                simp [run_export, hed, hext, hnil]
              · have hnil : extra_cols mapping (flat_data ed) ≠ [] := by
                  simpa [List.isEmpty_iff] using hext
                simp [run_export, hed, hext, hnil]

/-- C6, witness: the amended theorem applied to the end-to-end example
mapping and flat record. -/
theorem C6_extra_exactly_unmapped_witness :
    extra_cols mappingC2 (flat_data docC2) =
      unmapped_keys_spec mappingC2 (flat_data docC2) :=
  (C6_extra_exactly_unmapped mappingC2 (flat_data docC2) envC6W
    (by decide) (by decide)).1

/-- C6, counterexample: with two source paths a and b both mapped to the
target column T, the flat key a is a mapping source path yet appears in
the extra table, because only the surviving reverse-map value b is
excluded; the claim says the extra set would be empty here. -/
theorem C6_counterexample :
    extra_cols mappingC6 flatC6 = ["a"] ∧
    unmapped_keys_spec mappingC6 flatC6 = [] ∧
    ("a", "T") ∈ mappingC6 := by
  refine ⟨rfl, rfl, by decide⟩

/-- C8: every fatal export error (extraction not complete, no reviewed
data, missing target-schema workbook, missing or malformed field
mapping) makes the run fail, and a failed run writes no output file at
all; in particular no partial official or extra table is produced. -/
theorem C8_no_partial_writes (env : ExportEnv) :
    (isOkE (run_export env).1 = false → (run_export env).2 = []) ∧
    (env.extraction_complete = false → isOkE (run_export env).1 = false) ∧
    (env.edited_data = [] → isOkE (run_export env).1 = false) ∧
    (env.idf_exists = false → isOkE (run_export env).1 = false) ∧
    (env.mapping_load = none → isOkE (run_export env).1 = false) := by
  rcases env with ⟨ec, ed, ie, ml, cols⟩
  cases ec with
  | false => simp [run_export, isOkE]
  | true =>
      by_cases hed : ed.isEmpty
      · have hed2 : ed = [] := List.isEmpty_iff.mp hed
        simp [run_export, isOkE, hed]
      · have hne2 : ed ≠ [] := by simpa [List.isEmpty_iff] using hed
        cases ie with
        | false => simp [run_export, isOkE, hed]
        | true =>
            cases ml with
            | none => simp [run_export, isOkE, hed]
            | some mapping =>
                refine ⟨?_, ?_, ?_, ?_, ?_⟩
                · intro h1
                  simp [run_export, isOkE, hed] at h1
                · intro h2
                  simp at h2
                · intro h3
                  exact (hne2 h3).elim
                · intro h4
                  simp at h4
                · intro h5
                  simp at h5

/-- C8, witness: the abort theorem applied to an export attempted before
extraction completed: the run fails and writes nothing. -/
theorem C8_no_partial_writes_witness :
    isOkE (run_export envC8).1 = false ∧ (run_export envC8).2 = [] :=
  ⟨(C8_no_partial_writes envC8).2.1 rfl,
   (C8_no_partial_writes envC8).1 ((C8_no_partial_writes envC8).2.1 rfl)⟩

/-- C9: when no two source paths map to the same target column, the
reverse map loses no mapping entry: every mapping pair with a nonempty
target column is recovered by looking its target up in the reverse
map. -/
theorem C9_reverse_map_lossless (mapping : List (String × String))
    (hnd : (mapping.map Prod.snd).Nodup) :
    ∀ kv ∈ mapping, kv.2 ≠ "" → dlastS (reverse_map mapping) kv.2 = some kv.1 := by
  intro kv hkv hne
  have hfs : ((mapping.filter (fun kv => kv.2 ≠ "")).map Prod.snd).Nodup :=
    List.Nodup.sublist (List.Sublist.map _ (List.filter_sublist _)) hnd
  have hkeys : (((mapping.filter (fun kv => kv.2 ≠ "")).map
      (fun kv => (kv.2, kv.1))).map Prod.fst).Nodup := by
    rw [List.map_map]
    exact hfs
  have hmem : (kv.2, kv.1) ∈ (mapping.filter (fun kv => kv.2 ≠ "")).map
      (fun kv => (kv.2, kv.1)) :=
    List.mem_map.mpr ⟨kv, List.mem_filter.mpr ⟨hkv, by simpa using hne⟩, rfl⟩
  rw [reverse_map, pyDict_of_nodup hkeys]
  exact dlastS_of_nodup hkeys hmem

/-- C9, witness: the lossless-reverse-map theorem applied to the example
mapping. -/
theorem C9_reverse_map_lossless_witness :
    dlastS (reverse_map mappingC2) "PatientName" = some "Demographics.name" :=
  C9_reverse_map_lossless mappingC2 (by decide) ("Demographics.name", "PatientName")
    (by decide) (by decide)

/-- C7, amended: the unedited correction pass reproduces the document
verbatim exactly when every leaf it touches is a boolean or a string: a
mapping section all of whose fields are booleans, strings, or
sub-mappings with only string subvalues and no properties key; a
non-empty repeated-entry section with only string subvalues; or a string
scalar section. Numeric, null and list leaves are instead replaced by
their text rendering, so exact reproduction fails for them (see the
counterexample). -/
theorem C7_no_edit_round_trip (doc : List (String × Value))
    (h : ∀ kv ∈ doc, sectionExact kv.2 = true) :
    render_doc noEdits doc = some doc :=
  render_doc_exact doc h

/-- C7, witness: the round-trip theorem applied to a document with
boolean and string leaves, a repeated-entry section and a string scalar
section. -/
theorem C7_no_edit_round_trip_witness :
    render_doc noEdits docC7W = some docC7W :=
  C7_no_edit_round_trip docC7W (by decide)

/-- C7, counterexample: with no edits, the numeric leaf x of the nested
mapping under S.f comes back as the string 41, not the number 41, so the
correction pass does not reproduce nested-mapping leaves exactly. -/
theorem C7_counterexample :
    render_doc noEdits docC7 = some [("S", vobj [("f", vobj [("x", vstr "41")])])] ∧
    [("S", vobj [("f", vobj [("x", vstr "41")])])] ≠ docC7 := by
  refine ⟨rfl, ?_⟩
  simp [docC7]

/-- C10: a falsy non-boolean scalar leaf, that is the number 0, the
empty string or null, is presented as empty text and an unedited
write-back stores the empty string for all three, both for direct scalar
fields and for subfields of a nested mapping: 0, the empty string and
null become indistinguishable in the edited document. -/
theorem C10_falsy_scalars_collapse (s f sub : String) :
    render_field noEdits s f (vint 0) = vstr "" ∧
    render_field noEdits s f (vstr "") = vstr "" ∧
    render_field noEdits s f vnull = vstr "" ∧
    render_field noEdits s f (vobj [(sub, vint 0)]) = vobj [(sub, vstr "")] ∧
    render_field noEdits s f (vobj [(sub, vstr "")]) = vobj [(sub, vstr "")] ∧
    render_field noEdits s f (vobj [(sub, vnull)]) = vobj [(sub, vstr "")] := by
  refine ⟨rfl, rfl, rfl, ?_, ?_, ?_⟩ <;>
  · by_cases hs : sub = "properties" <;>
      simp [render_field, render_subdict, vLookup, hs, text_input, noEdits,
        pyOrEmpty, pyFalsy, pyStr]

end OppTree
